import Mathlib

/-!
Verification of the cozy-desktop core (Merge reconciler and Local Watcher)
against its natural-language specification.

The JavaScript sources `src/merge.js` and `src/local/watcher.js` are shallowly
embedded below.  Strings (paths and ids) are modelled as `List Char`, PouchDB
as a list of documents (tombstones kept, with `_deleted = true`), asynchronous
side effects (calls into the local/remote side handlers, prep emissions) as
explicit effect lists.  Helpers imported from files outside the embedded
sources (`metadata.js`, `pouch.js`, `utils/fs.js`) are modelled from the
specification and marked as such in their doc comments.
-/

/-- Paths and ids are character lists, so that prefix reasoning is plain list
reasoning. -/
abbrev Str := List Char

/-- `strStarts p s` holds when `p` is a prefix of `s` (executable). -/
def strStarts : Str → Str → Bool
  | [], _ => true
  | _ :: _, [] => false
  | a :: p, b :: s => a = b && strStarts p s

/-- JavaScript `String.prototype.replace` with a plain-string pattern:
replace the first occurrence of `pat` in `s` by `rep`; if `pat` does not
occur, return `s` unchanged. -/
def replaceFirst (s pat rep : Str) : Str :=
  match s with
  | [] => if strStarts pat [] then rep else []
  | c :: s' =>
    if strStarts pat (c :: s') then rep ++ (c :: s').drop pat.length
    else c :: replaceFirst s' pat rep

/-- The last path component (Node `path.basename` without extension
stripping): characters after the last `/`. -/
def lastComp (p : Str) : Str :=
  ((p.reverse.takeWhile (fun c => c ≠ '/')).reverse)

/-- Node `path.dirname` for relative paths: everything before the last `/`,
or `"."` when there is no separator. -/
def dirname (p : Str) : Str :=
  let r := p.reverse.dropWhile (fun c => c ≠ '/')
  if r.isEmpty then ['.'] else (r.drop 1).reverse

/-- Node `path.extname`: the suffix of the basename starting at its last
dot, empty when the basename has no dot or only a leading dot. -/
def extname (p : Str) : Str :=
  let b := lastComp p
  let r := b.reverse.takeWhile (fun c => c ≠ '.')
  if r.length = b.length then []
  else if b.length - r.length - 1 = 0 then []
  else b.drop (b.length - r.length - 1)

/-- Node `path.basename(p, ext)`: the last component with a trailing proper
occurrence of `ext` stripped. -/
def basenameExt (p ext : Str) : Str :=
  let b := lastComp p
  if ext ≠ [] && ext.isSuffixOf b && ext.length < b.length then
    b.take (b.length - ext.length)
  else b

/-- Node `path.join` restricted to the shapes produced by `dirname` on
relative paths: `join "." b = b`, otherwise concatenation with a slash. -/
def joinPath (dir base : Str) : Str :=
  if dir = ['.'] then base else dir ++ '/' :: base

-- quick sanity checks on the path model
example : extname "a/b.txt".toList = ".txt".toList := by decide
example : extname "a/.bashrc".toList = [] := by decide
example : extname "a.b.c".toList = ".c".toList := by decide
example : dirname "a/b/c".toList = "a/b".toList := by decide
example : dirname "a".toList = ['.'] := by decide
example : basenameExt "a/b.txt".toList ".txt".toList = "b".toList := by decide
example : joinPath ['.'] "x".toList = "x".toList := by decide
example : replaceFirst "dir/a".toList "dir".toList "dir2".toList = "dir2/a".toList := by decide

/-- The two synchronization sides.  `local`/`remote` in the source; those
names are Lean keywords resp. fine, we use `loc`/`rem`. -/
inductive Side
  | loc
  | rem
deriving DecidableEq, Repr

/-- `otherSide` from `side.js` (not under the embedded sources).
Modelled from the spec: the opposite member of `{local, remote}`. -/
def otherSide : Side → Side
  | Side.loc => Side.rem
  | Side.rem => Side.loc

/-- The `sides` mapping of a document: short-revision counter per side,
`none` when the side has no entry. -/
structure Sides where
  loc : Option Nat
  rem : Option Nat
deriving DecidableEq, Repr

def Sides.get (s : Sides) : Side → Option Nat
  | Side.loc => s.loc
  | Side.rem => s.rem

def Sides.set (s : Sides) : Side → Nat → Sides
  | Side.loc, n => { s with loc := some n }
  | Side.rem, n => { s with rem := some n }

def Sides.clear (s : Sides) : Side → Sides
  | Side.loc => { s with loc := none }
  | Side.rem => { s with rem := none }

/-- JavaScript truthiness of `sides[side]`: present and nonzero. -/
def sidePresent (s : Sides) (side : Side) : Bool :=
  (s.get side).getD 0 != 0

/-- The largest short revision over both sides (0 when empty). -/
def maxSides (s : Sides) : Nat :=
  max (s.loc.getD 0) (s.rem.getD 0)

inductive DocType
  | file
  | folder
deriving DecidableEq, Repr

/-- A PouchDB document as described in spec §3.  `class` is a Lean keyword,
hence the field name `cls`; the remote descriptor is opaque, modelled as a
number. -/
structure Metadata where
  _id : Str
  path : Str
  docType : DocType
  _rev : Option Nat
  checksum : Option Str
  size : Option Nat
  executable : Option Bool
  mime : Option Str
  cls : Option Str
  tags : Option (List Str)
  remote : Option Nat
  _deleted : Bool
  moveTo : Option Str
  trashed : Option Bool
  errors : Option Nat
  sides : Sides
  creationDate : Option Str
  lastModification : Option Str
  updated_at : Option Str
deriving DecidableEq, Repr

/-- A blank document, used to build concrete witnesses. -/
def emptyMeta : Metadata where
  _id := []
  path := []
  docType := DocType.file
  _rev := none
  checksum := none
  size := none
  executable := none
  mime := none
  cls := none
  tags := none
  remote := none
  _deleted := false
  moveTo := none
  trashed := none
  errors := none
  sides := { loc := none, rem := none }
  creationDate := none
  lastModification := none
  updated_at := none

/-- Modelled from the spec: `markSide(side, doc, existing)` sets
`doc.sides[side] := max(existing.sides || 0) + 1` (`metadata.js` is not among
the embedded sources; in the source `existing` may be `undefined`). -/
def markSide (side : Side) (doc : Metadata) (prev : Option Metadata) : Metadata :=
  let base : Nat := match prev with | some p => maxSides p.sides | none => 0
  { doc with sides := doc.sides.set side (base + 1) }

/-- Modelled from the spec: "up to date on side S" means
`sides[S] == max(sides.values())` (`metadata.js` is missing). -/
def isUpToDate (side : Side) (m : Metadata) : Bool :=
  match m.sides.get side with
  | some n => n == maxSides m.sides
  | none => false

/-- Modelled from the spec: `sameBinary` compares the content hashes (base64
MD5 checksums) of two file documents (`metadata.js` is missing). -/
def sameBinary (a b : Metadata) : Bool :=
  match a.checksum, b.checksum with
  | some x, some y => x == y
  | _, _ => false

/-- Modelled from the spec: `sameFile` — same metadata and content, ignoring
store bookkeeping (`_rev`, `sides`, `errors`, tombstone/move markers)
(`metadata.js` is missing). -/
def sameFile (a b : Metadata) : Bool :=
  a._id == b._id && a.path == b.path && a.docType == b.docType &&
  a.checksum == b.checksum && a.size == b.size && a.executable == b.executable &&
  a.mime == b.mime && a.cls == b.cls && a.tags == b.tags &&
  a.remote == b.remote && a.lastModification == b.lastModification

/-- Modelled from the spec: `sameFolder` — the folder analogue of
`sameFile`, without the file-only attributes (`metadata.js` is missing). -/
def sameFolder (a b : Metadata) : Bool :=
  a._id == b._id && a.path == b.path && a.docType == b.docType &&
  a.tags == b.tags && a.remote == b.remote &&
  a.lastModification == b.lastModification

/-- Modelled from the spec: `fsutils.validName` makes an ISO-8601 timestamp
filesystem-safe (`utils/fs.js` is missing); colons and slashes become
dashes. -/
def validName (s : Str) : Str :=
  s.map (fun c => if c = ':' ∨ c = '/' then '-' else c)

/-! ## The PouchDB model (`pouch.js` is not among the embedded sources) -/

/-- A stored revision-history entry, backing `getPreviousRevAsync`. -/
structure PrevRev where
  id : Str
  shortRev : Nat
  doc : Metadata
deriving DecidableEq, Repr

/-- The persistent store: the current documents (tombstones included, marked
`_deleted`) and the revision history used by `getPreviousRevAsync`. -/
structure DB where
  docs : List Metadata
  prevRevs : List PrevRev
deriving DecidableEq, Repr

/-- `pouch.db.get(id)`: the current document at `id`, where a tombstone
reads as 404 (absent). -/
def dbGet (docs : List Metadata) (id : Str) : Option Metadata :=
  match docs.find? (fun d => d._id == id) with
  | some d => if d._deleted then none else some d
  | none => none

/-- `pouch.put(doc)`: upsert by `_id` (a `_deleted` write leaves the
tombstone in place of the live document). -/
def putDoc (docs : List Metadata) (doc : Metadata) : List Metadata :=
  match docs with
  | [] => [doc]
  | d :: rest => if d._id == doc._id then doc :: rest else d :: putDoc rest doc

/-- `pouch.bulkDocs(docs)`: the writes of one atomic batch, in order. -/
def bulkDocs (docs : List Metadata) (batch : List Metadata) : List Metadata :=
  batch.foldl putDoc docs

/-- Ordering of documents by `_id` (lexicographic), used by the recursive
path index. -/
def idLe (a b : Metadata) : Prop := a._id ≤ b._id

instance : DecidableRel idLe := fun a b => inferInstanceAs (Decidable (a._id ≤ b._id))

instance : IsTotal Metadata idLe := ⟨fun a b => le_total a._id b._id⟩

instance : IsTrans Metadata idLe := ⟨fun _ _ _ h1 h2 => le_trans h1 h2⟩

/-- Membership test of a non-deleted document in the subtree of `p`. -/
def underPath (p : Str) (d : Metadata) : Bool :=
  !d._deleted && (p.isEmpty || strStarts (p ++ ['/']) d._id)

/-- Modelled from the spec: `byRecursivePath(prefix)` returns the non-deleted
documents whose `id` begins with `prefix + "/"`, sorted by `id` ascending;
`byRecursivePath("")` returns all non-deleted documents (as used by the
watcher's `onReady`). -/
def byRecursivePath (docs : List Metadata) (p : Str) : List Metadata :=
  List.insertionSort idLe (docs.filter (underPath p))

/-- Modelled from the spec: `byChecksum(checksum)` returns the non-deleted
documents with the given content checksum. -/
def byChecksum (docs : List Metadata) (c : Option Str) : List Metadata :=
  docs.filter (fun d => !d._deleted && d.checksum == c)

/-- Modelled from the spec: `previousRev(id, shortRev)` fetches the document
from the revision history matching the given short revision; absent short
revision (JS `undefined`) finds nothing. -/
def getPreviousRev (db : DB) (id : Str) (shortRev : Option Nat) : Option Metadata :=
  match shortRev with
  | none => none
  | some n => (db.prevRevs.find? (fun p => p.id == id && p.shortRev == n)).map (fun p => p.doc)

/-- Store well-formedness: current documents sorted by strictly increasing
`_id` (in particular ids are unique). -/
def DBWF (docs : List Metadata) : Prop :=
  List.Pairwise (fun a b => a._id < b._id) docs

instance : DecidablePred DBWF := fun docs => by
  unfold DBWF
  infer_instance

/-! ## Merge (`src/merge.js`) -/

/-- An externally visible side effect of a Merge operation: the call
`this[side].resolveConflictAsync(dst, doc)`. -/
inductive Effect
  | conflictRenamed (side : Side) (dst : Metadata) (orig : Metadata)
deriving DecidableEq, Repr

/-- The side a conflict effect was dispatched to. -/
def Effect.side : Effect → Side
  | Effect.conflictRenamed s _ _ => s

/-- The outcome of a Merge operation: the new store, the external effects in
order, the returned value (`none` for JS `null`/`undefined`), and whether the
operation threw (only `updateFileAsync`'s file-vs-folder mismatch does). -/
structure MergeOut where
  db : DB
  effects : List Effect
  ret : Option Metadata
  threw : Bool := false
deriving DecidableEq, Repr

/-- The conflict path built by `resolveConflictAsync`:
`<dir>/<basename (at most 180 chars)>-conflict-<safe date><ext>`. -/
def conflictPath (p now : Str) : Str :=
  let date := validName now
  let ext := extname p
  let dir := dirname p
  let base0 := basenameExt p ext
  let base := if base0.length > 180 then base0.take 180 else base0
  joinPath dir base ++ "-conflict-".toList ++ date ++ ext

/-- The renamed clone built by `resolveConflictAsync` (only `path` changes;
the clone keeps `_id` and every other field). -/
def resolveConflictDoc (doc : Metadata) (now : Str) : Metadata :=
  { doc with path := conflictPath doc.path now }

/-- `Merge.resolveConflictAsync(side, doc)`: clone `doc`, give the clone the
conflict path, hand it to `this[side]`'s conflict handler (external, recorded
as an effect), and return the clone.  The store is not touched. -/
def resolveConflictAsync (side : Side) (db : DB) (doc : Metadata) (now : Str) : MergeOut :=
  let dst := resolveConflictDoc doc now
  { db := db, effects := [Effect.conflictRenamed side dst doc], ret := some dst }

/-- The synthesized folder document of `ensureParentExistAsync`. -/
def mkParentDoc (parentId parentPath now : Str) : Metadata :=
  { emptyMeta with
      _id := parentId
      path := parentPath
      docType := DocType.folder
      updated_at := some now }

/-- `dropWhile` never lengthens a list. -/
theorem length_dropWhile_le (q : Char → Bool) (l : Str) :
    (l.dropWhile q).length ≤ l.length := by
  induction l with
  | nil => simp [List.dropWhile]
  | cons c l ih =>
    by_cases h : q c
    · simp [List.dropWhile, h]; omega
    · simp [List.dropWhile, h]

/-- Unfolding equation for `dirname`. -/
theorem dirname_eq (p : Str) :
    dirname p = if (p.reverse.dropWhile (fun c => c ≠ '/')).isEmpty then ['.']
      else ((p.reverse.dropWhile (fun c => c ≠ '/')).drop 1).reverse := rfl

theorem dirname_length_lt (p : Str) (h : dirname p ≠ ['.']) :
    (dirname p).length < p.length := by
  by_cases he : (p.reverse.dropWhile (fun c => c ≠ '/')).isEmpty = true
  · exact absurd (by rw [dirname_eq]; exact if_pos he) h
  · have hd : dirname p = ((p.reverse.dropWhile (fun c => c ≠ '/')).drop 1).reverse := by
      rw [dirname_eq]
      exact if_neg he
    have h1 : (p.reverse.dropWhile (fun c => c ≠ '/')).length ≤ p.length := by
      simpa using length_dropWhile_le (fun c => decide (c ≠ '/')) p.reverse
    have h2 : (p.reverse.dropWhile (fun c => c ≠ '/')).length ≠ 0 := by
      intro h0
      apply he
      rw [List.length_eq_zero.mp h0]
      rfl
    rw [hd]
    simp only [List.length_reverse, List.length_drop]
    omega

mutual

/-- `Merge.ensureParentExistAsync(side, doc)` (merge.js:50-75): walk up the
`dirname` chain, synthesizing a folder document for each missing ancestor.
The source receives the whole document but only reads `doc._id` and
`doc.path`, which are passed here directly. -/
def ensureParentExistAsync (side : Side) (db : DB) (docId docPath : Str) (now : Str) :
    DB × List Effect :=
  let parentId := dirname docId
  if _hpar : parentId = ['.'] then (db, [])
  else match dbGet db.docs parentId with
    | some _ => (db, [])
    | none =>
      let r1 := ensureParentExistAsync side db parentId (dirname docPath) now
      let r2 := putFolderAsync side r1.1 (mkParentDoc parentId (dirname docPath) now) now
      (r2.db, r1.2 ++ r2.effects)
termination_by 2 * docId.length
decreasing_by
  · have := dirname_length_lt docId _hpar
    omega
  · simp only [mkParentDoc]
    have := dirname_length_lt docId _hpar
    omega

/-- `Merge.putFolderAsync(side, doc)` (merge.js:200-225).  The recursive
`ensureParentExistAsync` call receives the `_id`/`path` of `doc`, which the
in-place mutations before it do not change. -/
def putFolderAsync (side : Side) (db : DB) (doc : Metadata) (now : Str) : MergeOut :=
  let folder? := dbGet db.docs doc._id
  let doc1 := markSide side doc folder?
  match folder? with
  | some folder =>
    if folder.docType = DocType.file then
      resolveConflictAsync side db doc1 now
    else
      let doc1 := { doc1 with _rev := folder._rev }
      let doc1 := if doc1.tags = none then { doc1 with tags := some (folder.tags.getD []) } else doc1
      let doc1 := if doc1.remote = none then { doc1 with remote := folder.remote } else doc1
      if sameFolder folder doc1 then { db := db, effects := [], ret := none }
      else { db := { db with docs := putDoc db.docs doc1 }, effects := [], ret := some doc1 }
  | none =>
    let doc1 := if doc1.tags = none then { doc1 with tags := some [] } else doc1
    let r := ensureParentExistAsync side db doc._id doc.path now
    { db := { r.1 with docs := putDoc r.1.docs doc1 }, effects := r.2, ret := some doc1 }
termination_by 2 * doc._id.length + 1
decreasing_by
  omega

end

/-- `Merge.updateFileAsync(side, doc)` (merge.js:165-197).  The
file-over-folder case throws in the source (`threw := true` here). -/
def updateFileAsync (side : Side) (db : DB) (doc : Metadata) (now : Str) : MergeOut :=
  let file? := dbGet db.docs doc._id
  let doc := markSide side doc file?
  match file? with
  | some file =>
    if file.docType = DocType.folder then
      { db := db, effects := [], ret := none, threw := true }
    else
      let doc := { doc with _rev := file._rev }
      let doc := if doc.tags = none then { doc with tags := some (file.tags.getD []) } else doc
      let doc := if doc.remote = none then { doc with remote := file.remote } else doc
      if sameBinary file doc then
        let doc := if doc.size = none then { doc with size := file.size } else doc
        let doc := if doc.cls = none then { doc with cls := file.cls } else doc
        let doc := if doc.mime = none then { doc with mime := file.mime } else doc
        if sameFile file doc then { db := db, effects := [], ret := none }
        else { db := { db with docs := putDoc db.docs doc }, effects := [], ret := some doc }
      else if !isUpToDate side file then
        resolveConflictAsync side db doc now
      else if sameFile file doc then { db := db, effects := [], ret := none }
      else { db := { db with docs := putDoc db.docs doc }, effects := [], ret := some doc }
  | none =>
    let doc := if doc.tags = none then { doc with tags := some [] } else doc
    let r := ensureParentExistAsync side db doc._id doc.path now
    { db := { r.1 with docs := putDoc r.1.docs doc }, effects := r.2, ret := some doc }

/-- `Merge.resolveInitialAddAsync(side, doc, file)` (merge.js:141-162).
The source compares `prev.md5sum === doc.md5sum`; `md5sum` is the content
hash, named `checksum` in the data model of spec §3. -/
def resolveInitialAddAsync (side : Side) (db : DB) (doc file : Metadata) (now : Str) : MergeOut :=
  if !(sidePresent file.sides Side.rem) then
    updateFileAsync side db doc now
  else if file.sides.get Side.rem == file.sides.get Side.loc then
    updateFileAsync side db doc now
  else
    let shortRev := file.sides.get Side.loc
    let doc' := if doc.remote = none then { doc with remote := file.remote } else doc
    match getPreviousRev db doc._id shortRev with
    | some prev =>
      if prev.checksum == doc.checksum then { db := db, effects := [], ret := none }
      else resolveConflictAsync Side.rem db doc' now
    | none => resolveConflictAsync Side.rem db doc' now

/-- `Merge.addFileAsync(side, doc)` (merge.js:103-137). -/
def addFileAsync (side : Side) (db : DB) (doc : Metadata) (now : Str) : MergeOut :=
  let file? := dbGet db.docs doc._id
  let doc := markSide side doc file?
  match file? with
  | some file =>
    if file.docType = DocType.folder then
      resolveConflictAsync side db doc now
    else if sameBinary file doc then
      let doc := { doc with _rev := file._rev }
      let doc := if doc.size = none then { doc with size := file.size } else doc
      let doc := if doc.cls = none then { doc with cls := file.cls } else doc
      let doc := if doc.mime = none then { doc with mime := file.mime } else doc
      let doc := if doc.tags = none then { doc with tags := some (file.tags.getD []) } else doc
      let doc := if doc.remote = none then { doc with remote := file.remote } else doc
      if sameFile file doc then { db := db, effects := [], ret := none }
      else { db := { db with docs := putDoc db.docs doc }, effects := [], ret := some doc }
    else if side = Side.loc && (file.sides.get Side.loc).isSome then
      resolveInitialAddAsync side db doc file now
    else
      resolveConflictAsync side db doc now
  | none =>
    let doc := if doc.tags = none then { doc with tags := some [] } else doc
    let r := ensureParentExistAsync side db doc._id doc.path now
    { db := { r.1 with docs := putDoc r.1.docs doc }, effects := r.2, ret := some doc }

/-- The destination document as mutated by `moveFileAsync` before its
branches: marked on `side`, missing attributes carried over from `was`,
`trashed` removed.  (`markSide(side, was, was)` does not change the fields
read here, so carrying from the unmarked `was` is the same.) -/
def moveDocEnriched (side : Side) (doc was : Metadata) (file? : Option Metadata) : Metadata :=
  let doc := markSide side doc file?
  let doc := if doc.size = none then { doc with size := was.size } else doc
  let doc := if doc.cls = none then { doc with cls := was.cls } else doc
  let doc := if doc.mime = none then { doc with mime := was.mime } else doc
  let doc := if doc.tags = none then { doc with tags := some (was.tags.getD []) } else doc
  { doc with trashed := none }

/-- `Merge.moveFileAsync(side, doc, was)` (merge.js:228-261). -/
def moveFileAsync (side : Side) (db : DB) (doc was : Metadata) (now : Str) : MergeOut :=
  if sidePresent was.sides side then
    let file? := dbGet db.docs doc._id
    let doc := moveDocEnriched side doc was file?
    let was := markSide side was (some was)
    let was := { was with moveTo := some doc._id, _deleted := true, errors := none }
    match file? with
    | some file =>
      if sameFile file doc then
        { db := db, effects := [], ret := none }
      else
        let dst := resolveConflictDoc doc now
        let was := { was with moveTo := some dst._id }
        let dst := { dst with sides := Sides.set { loc := none, rem := none } side 1 }
        { db := { db with docs := bulkDocs db.docs [was, dst] },
          effects := [Effect.conflictRenamed side (resolveConflictDoc doc now) doc],
          ret := none }
    | none =>
      let r := ensureParentExistAsync side db doc._id doc.path now
      { db := { r.1 with docs := bulkDocs r.1.docs [was, doc] }, effects := r.2, ret := none }
  else
    addFileAsync side db doc now

/-- The per-descendant tombstone of `moveFolderRecursivelyAsync`: a clone
with `trashed` removed, `_deleted` set, `moveTo` rewritten by first-occurrence
substitution of `was._id` by `folder._id`, and `errors` removed. -/
def moveSrcDoc (wasId folderId : Str) (d : Metadata) : Metadata :=
  { d with trashed := none, _deleted := true,
           moveTo := some (replaceFirst d._id wasId folderId), errors := none }

/-- The per-descendant replacement document of `moveFolderRecursivelyAsync`:
a clone marked on `side`, with `_id` and `path` rewritten and `_rev`/`errors`
removed. -/
def moveDstDoc (side : Side) (was folder : Metadata) (d : Metadata) : Metadata :=
  let d0 : Metadata := { d with trashed := none }
  let src := moveSrcDoc was._id folder._id d0
  let dst := markSide side d0 (some src)
  { dst with _id := replaceFirst d._id was._id folder._id,
             path := replaceFirst d.path was.path folder.path,
             _rev := none, errors := none }

/-- The `for (let doc of docs)` loop body of `moveFolderRecursivelyAsync`:
each descendant contributes its tombstone followed by its replacement. -/
def mkMoveBulk (side : Side) (was folder : Metadata) : List Metadata → List Metadata
  | [] => []
  | d :: rest =>
    moveSrcDoc was._id folder._id { d with trashed := none } ::
    moveDstDoc side was folder d :: mkMoveBulk side was folder rest

/-- The single atomic batch committed by `moveFolderRecursivelyAsync`: the
tombstone of `was` (with `moveTo = folder._id`), the new `folder`, and the
tombstone/replacement pair of every descendant. -/
def moveFolderBulk (side : Side) (db : DB) (folder was : Metadata) : List Metadata :=
  { was with _deleted := true, moveTo := some folder._id } :: folder ::
    mkMoveBulk side was folder (byRecursivePath db.docs was._id)

/-- `Merge.moveFolderRecursivelyAsync(side, folder, was)` (merge.js:291-320):
load the descendants of `was`, tombstone each with a rewritten `moveTo`, add
the rewritten replacements, and commit everything (including the tombstone of
`was` and the new `folder`) in one `bulkDocs` batch. -/
def moveFolderRecursivelyAsync (side : Side) (db : DB) (folder was : Metadata) : MergeOut :=
  { db := { db with docs := bulkDocs db.docs (moveFolderBulk side db folder was) },
    effects := [], ret := none }

/-- `Merge.deleteFileAsync(side, doc)` (merge.js:404-423). -/
def deleteFileAsync (side : Side) (db : DB) (doc : Metadata) : MergeOut :=
  match dbGet db.docs doc._id with
  | none => { db := db, effects := [], ret := none }
  | some file =>
    if sidePresent file.sides side then
      let file := markSide side file (some file)
      let file := { file with _deleted := true, errors := none }
      { db := { db with docs := putDoc db.docs file }, effects := [], ret := some file }
    else { db := db, effects := [], ret := none }

/-- `Merge.trashFileAsync(side, was, doc)` (merge.js:343-372). -/
def trashFileAsync (side : Side) (db : DB) (was doc : Metadata) (now : Str) : MergeOut :=
  match dbGet db.docs was._id with
  | none => { db := db, effects := [], ret := none }
  | some oldM =>
    if doc.docType ≠ oldM.docType then
      let r := resolveConflictAsync side db doc now
      { r with ret := none }
    else
      let oldM := { oldM with errors := none }
      let newM := { markSide side oldM (some oldM) with trashed := some true }
      if sidePresent oldM.sides side then
        let oldM2 := { markSide side oldM (some oldM) with _deleted := true }
        let docs2 := putDoc db.docs oldM2
        { db := { db with docs := putDoc docs2 newM }, effects := [], ret := some newM }
      else
        { db := { db with docs := putDoc db.docs newM }, effects := [], ret := some newM }

/-- The folder document written back on the "abort trash" branch of
`trashFolderAsync`: `errors` removed and the `sides[side]` entry removed. -/
def trashAborted (side : Side) (was : Metadata) : Metadata :=
  { was with errors := none, sides := was.sides.clear side }

/-- `Merge.trashFolderAsync(side, was, doc)` (merge.js:374-397): abort the
trash when some file descendant is not up to date on `side`, otherwise
tombstone the sub-folders and trash the folder itself like a file. -/
def trashFolderAsync (side : Side) (db : DB) (was doc : Metadata) (now : Str) : MergeOut :=
  let children := (byRecursivePath db.docs was._id).reverse
  if children.any (fun c => c.docType == DocType.file && !isUpToDate side c) then
    let was' := trashAborted side was
    { db := { db with docs := putDoc db.docs was' }, effects := [], ret := some was' }
  else
    let db2 := children.foldl
      (fun acc c =>
        if c.docType == DocType.folder then
          { acc with docs := putDoc acc.docs { c with _deleted := true } }
        else acc) db
    trashFileAsync side db2 was doc now

/-! ## Local watcher (`src/local/watcher.js`) -/

/-- A semantic operation emitted to Prep. `deleteFile`/`deleteFolder` carry
only a path in the source (`{path: filePath}`). -/
inductive PrepCall
  | addFile (doc : Metadata)
  | moveFile (doc : Metadata) (was : Metadata)
  | updateFile (doc : Metadata)
  | putFolder (doc : Metadata)
  | deleteFile (p : Str)
  | deleteFolder (p : Str)
  | deleteDoc (doc : Metadata)
deriving DecidableEq, Repr

/-- The kind of a pending deletion record (file or folder). -/
inductive PendKind
  | pendFile
  | pendDir
deriving DecidableEq, Repr

/-- The watcher state the embedded handlers touch: the pending records (keyed
by filesystem path, in insertion order) and the operations emitted so far. -/
structure WatcherSt where
  pending : List (Str × PendKind)
  emits : List PrepCall
deriving DecidableEq, Repr

/-- `hasPendingChild(folderPath)` (watcher.js:198-201): some pending record's
key is a direct child of the folder. -/
def hasPendingChild (pending : List (Str × PendKind)) (folderPath : Str) : Bool :=
  pending.any (fun kv => dirname kv.1 == folderPath)

/-- `onUnlinkFile(filePath)` (watcher.js:265-288): record a pending file
deletion (its 1250 ms timer is external to this model). -/
def onUnlinkFile (st : WatcherSt) (filePath : Str) : WatcherSt :=
  { st with pending := st.pending ++ [(filePath, PendKind.pendFile)] }

/-- `onUnlinkDir(folderPath)` (watcher.js:294-313): record a pending folder
deletion.  The source arms its 350 ms interval with `done`
(`interval: setInterval(done, 350)`, watcher.js:311). -/
def onUnlinkDir (st : WatcherSt) (folderPath : Str) : WatcherSt :=
  { st with pending := st.pending ++ [(folderPath, PendKind.pendDir)] }

/-- The `done` closure of `onUnlinkDir`: clear the pending record and emit
`deleteFolder(folderPath)` unconditionally. -/
def pendingDirDone (st : WatcherSt) (folderPath : Str) : WatcherSt :=
  { pending := st.pending.filter (fun kv => kv.1 ≠ folderPath),
    emits := st.emits ++ [PrepCall.deleteFolder folderPath] }

/-- The `check` closure of `onUnlinkDir`: finalize only when no pending
record is a direct child of the folder.  The source defines it but never
arms the interval with it. -/
def pendingDirCheck (st : WatcherSt) (folderPath : Str) : WatcherSt :=
  if hasPendingChild st.pending folderPath then st else pendingDirDone st folderPath

/-- One 350 ms interval tick for the pending folder record at `folderPath`:
as armed by the source (watcher.js:311) the tick runs `done` whenever the
record still exists. -/
def dirTick (st : WatcherSt) (folderPath : Str) : WatcherSt :=
  if st.pending.any (fun kv => kv.1 == folderPath && kv.2 == PendKind.pendDir) then
    pendingDirDone st folderPath
  else st

/-- The decision taken by `onAddFile`'s checksum callback
(watcher.js:211-242): `pendingKeys` is `Object.keys(this.pending)` at
callback time, `lookupFails` models a `byChecksum` lookup error. -/
structure AddFileOut where
  emit : PrepCall
  cancel : Option Str
deriving DecidableEq, Repr

/-- `onAddFile`'s checksum-ready callback (watcher.js:211-242): with no
pending deletion emit `addFile`; otherwise look up by checksum and emit
`moveFile(doc, same)` when some returned document's path is a pending key
(cancelling that record), `addFile` in every other case. -/
def onAddFileCb (db : DB) (lookupFails : Bool) (pendingKeys : List Str)
    (doc : Metadata) : AddFileOut :=
  if pendingKeys.isEmpty then { emit := PrepCall.addFile doc, cancel := none }
  else if lookupFails then { emit := PrepCall.addFile doc, cancel := none }
  else
    match (byChecksum db.docs doc.checksum).find? (fun d => decide (d.path ∈ pendingKeys)) with
    | some same => { emit := PrepCall.moveFile doc same, cancel := some same.path }
    | none => { emit := PrepCall.addFile doc, cancel := none }

/-- The outcome of `onReady` (watcher.js:329-349): the emitted operations and
the final value of `this.paths` (`none` models the `null` reset). -/
structure ReadyOut where
  emits : List PrepCall
  paths : Option (List Str)
deriving DecidableEq, Repr

/-- `onReady(callback)` (watcher.js:329-349): walk `byRecursivePath('')` in
reverse order, emit `deleteDoc` for every document whose path was not seen
during the initial scan, then clear `paths`. -/
def onReady (db : DB) (paths : List Str) : ReadyOut :=
  { emits := ((byRecursivePath db.docs []).reverse.filter
      (fun d => !(paths.contains d.path))).map PrepCall.deleteDoc,
    paths := none }

/-! ## Claim C3: the conflict path -/

/-- The conflict path as the specification words it: `dirname(path)` joined
with the basename without extension truncated to at most 180 characters,
then `-conflict-`, the filesystem-safe timestamp, and the original
extension. -/
def conflictPathSpec (p now : Str) : Str :=
  joinPath (dirname p) ((basenameExt p (extname p)).take 180) ++
    "-conflict-".toList ++ validName now ++ extname p

/-- The source's conditional slice agrees with the spec's unconditional
truncation to at most 180 characters. -/
theorem conflictPath_eq_spec (p now : Str) : conflictPath p now = conflictPathSpec p now := by
  unfold conflictPath conflictPathSpec
  by_cases h : (basenameExt p (extname p)).length > 180
  · simp [h]
  · simp only [h, if_false]
    rw [List.take_of_length_le (by omega)]

/-- C3: for every document passed to conflict resolution, the resolved path
is `dirname(path)` joined with the basename (without extension) truncated to
at most 180 characters, followed by `-conflict-`, the filesystem-safe
ISO-8601 timestamp, and the original extension; oversized basenames are
truncated before the suffix is appended. -/
theorem C3_conflict_path (side : Side) (db : DB) (doc : Metadata) (now : Str) :
    (resolveConflictAsync side db doc now).ret = some (resolveConflictDoc doc now) ∧
    (resolveConflictDoc doc now).path = conflictPathSpec doc.path now := by
  exact ⟨rfl, conflictPath_eq_spec doc.path now⟩

/-! ## Claim C2: folder-deletion pending checks -/

/-- C2 (code bug): with a pending record still alive for the child
`dir/file`, the 350 ms tick for the pending folder `dir` — armed with `done`
rather than `check` at watcher.js:311 — emits `deleteFolder(dir)` anyway,
while the (never armed) `check` closure would have postponed: the claim's
"emitted on a tick only if no pending record exists for a child" is violated
by the code. -/
theorem C2_dir_tick_fires_despite_pending_child :
    hasPendingChild
        (onUnlinkDir (onUnlinkFile ⟨[], []⟩ "dir/file".toList) "dir".toList).pending
        "dir".toList = true ∧
    (dirTick (onUnlinkDir (onUnlinkFile ⟨[], []⟩ "dir/file".toList) "dir".toList)
        "dir".toList).emits = [PrepCall.deleteFolder "dir".toList] ∧
    pendingDirCheck (onUnlinkDir (onUnlinkFile ⟨[], []⟩ "dir/file".toList) "dir".toList)
        "dir".toList =
      onUnlinkDir (onUnlinkFile ⟨[], []⟩ "dir/file".toList) "dir".toList := by
  decide

/-! ## Claim C5: move inference in onAddFile -/

/-- C5: after a successful checksum, `onAddFile` emits `addFile` when no
deletion is pending; otherwise it queries the store by checksum and emits
`moveFile(doc, match)` (cancelling the matched pending record) exactly when
some returned document's path is a pending key, and `addFile` in every other
case (no match, or a failing lookup). -/
theorem C5_onAddFile_decision (db : DB) (lookupFails : Bool) (keys : List Str)
    (doc : Metadata) :
    (keys = [] →
      onAddFileCb db lookupFails keys doc = { emit := PrepCall.addFile doc, cancel := none }) ∧
    (keys ≠ [] → lookupFails = true →
      onAddFileCb db lookupFails keys doc = { emit := PrepCall.addFile doc, cancel := none }) ∧
    (keys ≠ [] → lookupFails = false →
      ((∀ d ∈ byChecksum db.docs doc.checksum, d.path ∉ keys) →
        onAddFileCb db lookupFails keys doc = { emit := PrepCall.addFile doc, cancel := none }) ∧
      ((∃ d ∈ byChecksum db.docs doc.checksum, d.path ∈ keys) →
        ∃ same ∈ byChecksum db.docs doc.checksum, same.path ∈ keys ∧
          onAddFileCb db lookupFails keys doc =
            { emit := PrepCall.moveFile doc same, cancel := some same.path })) := by
  refine ⟨fun hk => ?_, fun hk hl => ?_, fun hk hl => ⟨fun hno => ?_, fun hex => ?_⟩⟩
  · subst hk
    simp [onAddFileCb]
  · simp [onAddFileCb, List.isEmpty_iff, hk, hl]
  · have hfind : (byChecksum db.docs doc.checksum).find?
        (fun d => decide (d.path ∈ keys)) = none :=
      List.find?_eq_none.mpr (fun d hd => by simpa using hno d hd)
    simp [onAddFileCb, List.isEmpty_iff, hk, hl, hfind]
  · have hsome : ((byChecksum db.docs doc.checksum).find?
        (fun d => decide (d.path ∈ keys))).isSome := by
      rw [List.find?_isSome]
      obtain ⟨d, hd, hp⟩ := hex
      exact ⟨d, hd, by simpa using hp⟩
    obtain ⟨same, hs⟩ := Option.isSome_iff_exists.mp hsome
    have hp := List.find?_some hs
    simp only [decide_eq_true_eq] at hp
    refine ⟨same, List.mem_of_find?_eq_some hs, hp, ?_⟩
    simp [onAddFileCb, List.isEmpty_iff, hk, hl, hs]

/-- The stale store entry whose path has a pending deletion. -/
def wOld5 : Metadata :=
  { emptyMeta with _id := "x".toList, path := "x".toList, checksum := some "c".toList }

/-- A store with one live file at path `x` with checksum `c`. -/
def wDB5 : DB := { docs := [wOld5], prevRevs := [] }

/-- The added document with the same checksum `c` at a new path. -/
def wDoc5 : Metadata :=
  { emptyMeta with _id := "y".toList, path := "y".toList, checksum := some "c".toList }

/-- Witness for C5: with the deletion of `x` pending and an added file of
equal checksum, a move is emitted and the pending record cancelled. -/
theorem C5_onAddFile_decision_witness :
    ∃ same ∈ byChecksum wDB5.docs wDoc5.checksum,
      same.path ∈ ["x".toList] ∧
      onAddFileCb wDB5 false ["x".toList] wDoc5 =
        { emit := PrepCall.moveFile wDoc5 same, cancel := some same.path } := by
  exact (C5_onAddFile_decision wDB5 false ["x".toList] wDoc5).2.2 (by decide) (by decide)
    |>.2 ⟨wOld5, by decide, by decide⟩

/-! ## Claim C7: deleteFile -/

/-- The tombstone written by `deleteFileAsync`: the stored document with its
side counter bumped, `_deleted` set and `errors` cleared. -/
def deletedTombstone (side : Side) (file : Metadata) : Metadata :=
  { markSide side file (some file) with _deleted := true, errors := none }

/-- C7: `deleteFile(side, doc)` is a successful no-op when the document is
absent (404) or not present on this side; when `sides[side]` is set, the
document is tombstoned with a bumped side counter and cleared errors, and
put. -/
theorem C7_deleteFile (side : Side) (db : DB) (doc : Metadata) :
    (dbGet db.docs doc._id = none →
      deleteFileAsync side db doc = { db := db, effects := [], ret := none }) ∧
    (∀ file, dbGet db.docs doc._id = some file →
      (sidePresent file.sides side = true →
        deleteFileAsync side db doc =
          { db := { db with docs := putDoc db.docs (deletedTombstone side file) },
            effects := [],
            ret := some (deletedTombstone side file) }) ∧
      (sidePresent file.sides side = false →
        deleteFileAsync side db doc = { db := db, effects := [], ret := none })) := by
  refine ⟨fun hnone => ?_, fun file hfile => ⟨fun hside => ?_, fun hside => ?_⟩⟩
  · simp [deleteFileAsync, hnone]
  · simp [deleteFileAsync, deletedTombstone, hfile, hside]
  · simp [deleteFileAsync, hfile, hside]

/-- A live file at id `a`, present on the local side. -/
def wFile7 : Metadata :=
  { emptyMeta with
      _id := "a".toList
      path := "a".toList
      sides := { loc := some 1, rem := none } }

/-- A store holding only `wFile7`. -/
def wDB7 : DB := { docs := [wFile7], prevRevs := [] }

/-- Witness for C7: deleting `a` locally tombstones it with a bumped local
counter and cleared errors. -/
theorem C7_deleteFile_witness :
    deleteFileAsync Side.loc wDB7 { emptyMeta with _id := "a".toList } =
      { db := { wDB7 with docs := putDoc wDB7.docs (deletedTombstone Side.loc wFile7) },
        effects := [],
        ret := some (deletedTombstone Side.loc wFile7) } := by
  exact ((C7_deleteFile Side.loc wDB7 { emptyMeta with _id := "a".toList }).2
    wFile7 (by decide)).1 (by decide)

/-! ## String-prefix and store lemmas -/

theorem strStarts_iff (p s : Str) : strStarts p s = true ↔ ∃ r, s = p ++ r := by
  induction p generalizing s with
  | nil =>
    simp [strStarts]
  | cons a p ih =>
    cases s with
    | nil => simp [strStarts]
    | cons b s =>
      simp only [strStarts, Bool.and_eq_true, decide_eq_true_eq, ih, List.cons_append,
        List.cons.injEq]
      constructor
      · rintro ⟨rfl, r, rfl⟩
        exact ⟨r, rfl, rfl⟩
      · rintro ⟨r, rfl, rfl⟩
        exact ⟨rfl, r, rfl⟩

theorem strStarts_refl_append (p r : Str) : strStarts p (p ++ r) = true :=
  (strStarts_iff p (p ++ r)).mpr ⟨r, rfl⟩

theorem strStarts_length_le {p s : Str} (h : strStarts p s = true) :
    p.length ≤ s.length := by
  obtain ⟨r, rfl⟩ := (strStarts_iff p s).mp h
  simp

theorem strStarts_of_longer {p s : Str} (h : s.length < p.length) :
    strStarts p s = false := by
  cases hss : strStarts p s with
  | false => rfl
  | true => exact absurd (strStarts_length_le hss) (by omega)

theorem replaceFirst_of_starts {s pat : Str} (rep : Str) (h : strStarts pat s = true) :
    replaceFirst s pat rep = rep ++ s.drop pat.length := by
  cases s with
  | nil =>
    cases pat with
    | nil => simp [replaceFirst, strStarts]
    | cons a p => simp [strStarts] at h
  | cons c s' => simp [replaceFirst, h]

theorem replaceFirst_append (pat r rep : Str) :
    replaceFirst (pat ++ r) pat rep = rep ++ r := by
  rw [replaceFirst_of_starts rep (strStarts_refl_append pat r), List.drop_left]

/-- Updating or appending a document whose `_id` fails `P` (and that can only
replace documents failing `P`) leaves a `P`-filter unchanged. -/
theorem filter_putDoc_irrelevant (P : Metadata → Bool) (docs : List Metadata)
    (doc : Metadata) (hdoc : P doc = false)
    (hall : ∀ d ∈ docs, d._id = doc._id → P d = false) :
    (putDoc docs doc).filter P = docs.filter P := by
  induction docs with
  | nil => simp [putDoc, hdoc]
  | cons d rest ih =>
    by_cases h : d._id = doc._id
    · have hPd : P d = false := hall d (by simp) h
      have : putDoc (d :: rest) doc = doc :: rest := by simp [putDoc, h]
      rw [this, List.filter_cons, List.filter_cons, hdoc, hPd]
      simp
    · have : putDoc (d :: rest) doc = d :: putDoc rest doc := by simp [putDoc, h]
      rw [this, List.filter_cons, List.filter_cons,
        ih (fun e he hid => hall e (by simp [he]) hid)]

/-! ## Claim C4: which side's conflict handler runs -/

/-- The existing store entry of the C4 counterexample: a file present only on
the local side. -/
def cFile4 : Metadata :=
  { emptyMeta with
      _id := "a".toList
      path := "a".toList
      docType := DocType.file
      checksum := some "x".toList
      sides := { loc := some 1, rem := none } }

/-- The C4 counterexample store. -/
def cDB4 : DB := { docs := [cFile4], prevRevs := [] }

/-- The incoming conflicting document of the C4 counterexample (same id,
different content, arriving on the remote side). -/
def cDoc4 : Metadata :=
  { emptyMeta with _id := "a".toList, path := "a".toList, checksum := some "y".toList }

/-- C4 counterexample: an `addFile` from the remote side conflicting with an
existing document held by the local side dispatches the renamed document to
the REMOTE side's handler — the side of the incoming change — not to the
opposite side (`local`, the side that already has the existing document) as
the claim states. -/
theorem C4_counterexample :
    (addFileAsync Side.rem cDB4 cDoc4 "T".toList).effects.map Effect.side = [Side.rem] ∧
    sidePresent cFile4.sides Side.loc = true ∧
    sidePresent cFile4.sides Side.rem = false ∧
    otherSide Side.rem = Side.loc ∧
    Side.rem ≠ Side.loc := by
  decide

/-- C4 (amended): whenever `addFileAsync` resolves a file-content conflict,
the renamed (losing) document — the clone of the incoming document with the
conflict path — is handed to the conflict handler of the side the incoming
change arrived on (`this[side]`), and that conflict-renamed document is
returned; the store is not written. -/
theorem C4_conflict_handler_same_side (side : Side) (db : DB) (doc : Metadata)
    (now : Str) (file : Metadata)
    (hget : dbGet db.docs doc._id = some file)
    (hft : file.docType = DocType.file)
    (hbin : sameBinary file (markSide side doc (some file)) = false)
    (hinit : (decide (side = Side.loc) && (file.sides.get Side.loc).isSome) = false) :
    addFileAsync side db doc now =
      resolveConflictAsync side db (markSide side doc (some file)) now ∧
    (addFileAsync side db doc now).effects =
      [Effect.conflictRenamed side
        (resolveConflictDoc (markSide side doc (some file)) now)
        (markSide side doc (some file))] ∧
    (addFileAsync side db doc now).ret =
      some (resolveConflictDoc (markSide side doc (some file)) now) ∧
    (addFileAsync side db doc now).db = db := by
  have hnotfolder : ¬(file.docType = DocType.folder) := by
    rw [hft]
    intro hcontra
    cases hcontra
  have hmain : addFileAsync side db doc now =
      resolveConflictAsync side db (markSide side doc (some file)) now := by
    simp [addFileAsync, hget, hnotfolder, hbin, hinit]
  refine ⟨hmain, ?_, ?_, ?_⟩ <;> rw [hmain] <;> rfl

/-- Witness for the amended C4 at a concrete input. -/
theorem C4_conflict_handler_same_side_witness :
    addFileAsync Side.rem cDB4 cDoc4 "T".toList =
      resolveConflictAsync Side.rem cDB4 (markSide Side.rem cDoc4 (some cFile4)) "T".toList :=
  (C4_conflict_handler_same_side Side.rem cDB4 cDoc4 "T".toList cFile4
    (by decide) (by decide) (by decide) (by decide)).1

/-! ## Claim C6: resolveInitialAdd with diverged sides -/

/-- C6: when `existing.sides.remote` is set and differs from
`existing.sides.local`, `resolveInitialAdd` fetches the previous revision
matching `existing.sides.local`; if its content hash equals the new
document's checksum the operation is a no-op, and otherwise the conflict is
resolved on the REMOTE side regardless of the side that triggered the add. -/
theorem C6_resolveInitialAdd (side : Side) (db : DB) (doc file : Metadata) (now : Str)
    (hrem : sidePresent file.sides Side.rem = true)
    (hne : file.sides.get Side.rem ≠ file.sides.get Side.loc) :
    (∀ prev, getPreviousRev db doc._id (file.sides.get Side.loc) = some prev →
      (prev.checksum = doc.checksum →
        resolveInitialAddAsync side db doc file now = { db := db, effects := [], ret := none }) ∧
      (prev.checksum ≠ doc.checksum →
        resolveInitialAddAsync side db doc file now =
          resolveConflictAsync Side.rem db
            (if doc.remote = none then { doc with remote := file.remote } else doc) now)) ∧
    (getPreviousRev db doc._id (file.sides.get Side.loc) = none →
      resolveInitialAddAsync side db doc file now =
        resolveConflictAsync Side.rem db
          (if doc.remote = none then { doc with remote := file.remote } else doc) now) := by
  refine ⟨fun prev hprev => ⟨fun heq => ?_, fun hneq => ?_⟩, fun hnone => ?_⟩
  · simp [resolveInitialAddAsync, hrem, hne, hprev, heq]
  · simp [resolveInitialAddAsync, hrem, hne, hprev, hneq]
  · simp [resolveInitialAddAsync, hrem, hne, hnone]

/-- The C6 witness store entry: remote at short-rev 2, local at 1. -/
def wFile6 : Metadata :=
  { emptyMeta with
      _id := "a".toList
      path := "a".toList
      checksum := some "z".toList
      sides := { loc := some 1, rem := some 2 } }

/-- The previous local revision of `a`, holding content hash `x`. -/
def wPrev6 : Metadata :=
  { emptyMeta with _id := "a".toList, path := "a".toList, checksum := some "x".toList }

/-- The C6 witness store, with the revision history entry for `(a, 1)`. -/
def wDB6 : DB :=
  { docs := [wFile6],
    prevRevs := [{ id := "a".toList, shortRev := 1, doc := wPrev6 }] }

/-- The initially-added document, equal in content to the previous local
revision (the file only changed remotely). -/
def wDoc6 : Metadata :=
  { emptyMeta with _id := "a".toList, path := "a".toList, checksum := some "x".toList }

/-- Witness for C6: the no-op branch at a concrete input. -/
theorem C6_resolveInitialAdd_witness :
    resolveInitialAddAsync Side.loc wDB6 wDoc6 wFile6 "T".toList =
      { db := wDB6, effects := [], ret := none } :=
  ((C6_resolveInitialAdd Side.loc wDB6 wDoc6 wFile6 "T".toList (by decide) (by decide)).1
    wPrev6 (by decide)).1 (by decide)

/-! ## Claim C10: moveFile over an identical destination is a pure no-op -/

/-- C10: when `was.sides[side]` is set and the store already holds a document
at `doc._id` that is file-equal to the (enriched) destination document,
`moveFileAsync` returns null and performs no store write, no tombstone
creation and no conflict rename. -/
theorem C10_moveFile_frame (side : Side) (db : DB) (doc was : Metadata) (now : Str)
    (file : Metadata)
    (hws : sidePresent was.sides side = true)
    (hget : dbGet db.docs doc._id = some file)
    (hsame : sameFile file (moveDocEnriched side doc was (some file)) = true) :
    moveFileAsync side db doc was now = { db := db, effects := [], ret := none } := by
  simp [moveFileAsync, hws, hget, hsame]

/-- The moved-from document of the C10 witness, present on the local side. -/
def wWas10 : Metadata :=
  { emptyMeta with
      _id := "a".toList
      path := "a".toList
      sides := { loc := some 1, rem := none } }

/-- The move destination document of the C10 witness, fully specified. -/
def wDoc10 : Metadata :=
  { emptyMeta with
      _id := "b".toList
      path := "b".toList
      checksum := some "c".toList
      size := some 1
      cls := some "f".toList
      mime := some "m".toList
      tags := some []
      remote := some 3
      lastModification := some "L".toList }

/-- The existing store document at the destination id, file-equal to the
enriched destination. -/
def wFile10 : Metadata :=
  { emptyMeta with
      _id := "b".toList
      path := "b".toList
      checksum := some "c".toList
      size := some 1
      cls := some "f".toList
      mime := some "m".toList
      tags := some []
      remote := some 3
      lastModification := some "L".toList
      sides := { loc := some 1, rem := some 1 } }

/-- The C10 witness store. -/
def wDB10 : DB := { docs := [wFile10], prevRevs := [] }

/-- Witness for C10 at a concrete input. -/
theorem C10_moveFile_frame_witness :
    moveFileAsync Side.loc wDB10 wDoc10 wWas10 "T".toList =
      { db := wDB10, effects := [], ret := none } :=
  C10_moveFile_frame Side.loc wDB10 wDoc10 wWas10 "T".toList wFile10
    (by decide) (by decide) (by decide)

/-! ## Claim C9: trashFolder aborts when a child moved ahead -/

/-- C9: when some file descendant of `was` is not up to date on `side`, the
trash is aborted: the `sides[side]` entry (and `errors`) is removed from the
folder document which is put back, no conflict handler runs, and the
descendant set of `was` is untouched — all descendants remain live. -/
theorem C9_trashFolder_abort (side : Side) (db : DB) (was doc : Metadata) (now : Str)
    (hwid : was._id ≠ [])
    (hchild : ∃ c ∈ byRecursivePath db.docs was._id,
        c.docType = DocType.file ∧ isUpToDate side c = false) :
    trashFolderAsync side db was doc now =
      { db := { db with docs := putDoc db.docs (trashAborted side was) },
        effects := [],
        ret := some (trashAborted side was) } ∧
    byRecursivePath (trashFolderAsync side db was doc now).db.docs was._id =
      byRecursivePath db.docs was._id := by
  obtain ⟨c, hcmem, hcfile, hcup⟩ := hchild
  have hany : ((byRecursivePath db.docs was._id).reverse.any
      (fun c => c.docType == DocType.file && !isUpToDate side c)) = true := by
    rw [List.any_eq_true]
    exact ⟨c, List.mem_reverse.mpr hcmem, by simp [hcfile, hcup]⟩
  have hmain : trashFolderAsync side db was doc now =
      { db := { db with docs := putDoc db.docs (trashAborted side was) },
        effects := [],
        ret := some (trashAborted side was) } := by
    simp [trashFolderAsync, hany]
  refine ⟨hmain, ?_⟩
  rw [hmain]
  show byRecursivePath (putDoc db.docs (trashAborted side was)) was._id =
    byRecursivePath db.docs was._id
  unfold byRecursivePath
  rw [filter_putDoc_irrelevant]
  · show underPath was._id (trashAborted side was) = false
    have hid : (trashAborted side was)._id = was._id := rfl
    unfold underPath
    rw [hid]
    rw [strStarts_of_longer (by simp)]
    simp [List.isEmpty_iff, hwid]
  · intro d _ hdid
    unfold underPath
    rw [hdid]
    show (!d._deleted && (was._id.isEmpty ||
      strStarts (was._id ++ ['/']) ((trashAborted side was)._id))) = false
    have hid : (trashAborted side was)._id = was._id := rfl
    rw [hid, strStarts_of_longer (by simp)]
    simp [List.isEmpty_iff, hwid]

/-- The C9 witness folder. -/
def wDir9 : Metadata :=
  { emptyMeta with
      _id := "dir".toList
      path := "dir".toList
      docType := DocType.folder
      sides := { loc := some 1, rem := some 1 } }

/-- A file child of `dir` updated on the remote side (not up to date
locally). -/
def wChild9 : Metadata :=
  { emptyMeta with
      _id := "dir/a".toList
      path := "dir/a".toList
      docType := DocType.file
      sides := { loc := some 1, rem := some 2 } }

/-- The C9 witness store. -/
def wDB9 : DB := { docs := [wDir9, wChild9], prevRevs := [] }

/-- Witness for C9 at a concrete input: trashing `dir` locally while `dir/a`
was updated remotely aborts, clearing `dir.sides.local`, and `dir/a` stays a
live descendant. -/
theorem C9_trashFolder_abort_witness :
    trashFolderAsync Side.loc wDB9 wDir9 wDir9 "T".toList =
      { db := { wDB9 with docs := putDoc wDB9.docs (trashAborted Side.loc wDir9) },
        effects := [],
        ret := some (trashAborted Side.loc wDir9) } ∧
    byRecursivePath (trashFolderAsync Side.loc wDB9 wDir9 wDir9 "T".toList).db.docs
        wDir9._id =
      byRecursivePath wDB9.docs wDir9._id :=
  C9_trashFolder_abort Side.loc wDB9 wDir9 wDir9 "T".toList (by decide)
    ⟨wChild9, by decide, by decide, by decide⟩

/-! ## Claim C8: the initial-scan missing-path sweep -/

/-- C8: when the initial scan completes, `onReady` emits exactly one
`deleteDoc` per live document whose path was not seen during the scan, the
emissions walk the store in strictly decreasing id order (children before
parents), and the `paths` set is cleared. -/
theorem C8_onReady_missing_docs (db : DB) (paths : List Str) (hwf : DBWF db.docs) :
    (∀ d : Metadata, ((onReady db paths).emits).count (PrepCall.deleteDoc d) =
        if d ∈ db.docs ∧ d._deleted = false ∧ d.path ∉ paths then 1 else 0) ∧
    (∃ l : List Metadata, (onReady db paths).emits = l.map PrepCall.deleteDoc ∧
        List.Pairwise (fun a b => b._id < a._id) l) ∧
    (onReady db paths).paths = none := by
  have hperm : (byRecursivePath db.docs []).Perm (db.docs.filter (underPath [])) :=
    List.perm_insertionSort idLe _
  have hne : List.Pairwise (fun a b : Metadata => a._id ≠ b._id) db.docs :=
    hwf.imp (fun h => ne_of_lt h)
  have hne0 : List.Pairwise (fun a b : Metadata => a._id ≠ b._id)
      (db.docs.filter (underPath [])) := hne.filter _
  have hnel0 : List.Pairwise (fun a b : Metadata => a._id ≠ b._id)
      (byRecursivePath db.docs []) :=
    (List.Perm.pairwise_iff (fun h => h.symm) hperm).mpr hne0
  have hsorted : List.Pairwise idLe (byRecursivePath db.docs []) :=
    List.sorted_insertionSort idLe (db.docs.filter (underPath []))
  have hstrict : List.Pairwise (fun a b : Metadata => a._id < b._id)
      (byRecursivePath db.docs []) :=
    (hsorted.and hnel0).imp (fun h => lt_of_le_of_ne h.1 h.2)
  have hlfpair : List.Pairwise (fun a b : Metadata => b._id < a._id)
      ((byRecursivePath db.docs []).reverse.filter (fun d => !(paths.contains d.path))) :=
    (List.pairwise_reverse.mpr hstrict).filter _
  have hl0nodup : (byRecursivePath db.docs []).Nodup :=
    hnel0.imp (fun h heq => h (by rw [heq]))
  have hlfnodup :
      ((byRecursivePath db.docs []).reverse.filter (fun d => !(paths.contains d.path))).Nodup :=
    (List.nodup_reverse.mpr hl0nodup).filter _
  have hmem : ∀ d : Metadata,
      d ∈ (byRecursivePath db.docs []).reverse.filter (fun d => !(paths.contains d.path)) ↔
        (d ∈ db.docs ∧ d._deleted = false ∧ d.path ∉ paths) := by
    intro d
    rw [List.mem_filter, List.mem_reverse, hperm.mem_iff, List.mem_filter]
    simp [underPath, and_assoc]
  refine ⟨fun d => ?_, ⟨_, rfl, hlfpair⟩, rfl⟩
  have hcount1 : (((byRecursivePath db.docs []).reverse.filter
        (fun d => !(paths.contains d.path))).map PrepCall.deleteDoc).count
        (PrepCall.deleteDoc d) =
      ((byRecursivePath db.docs []).reverse.filter
        (fun d => !(paths.contains d.path))).count d :=
    List.count_map_of_injective _ PrepCall.deleteDoc (fun a b h => by injection h) d
  show (((byRecursivePath db.docs []).reverse.filter
      (fun d => !(paths.contains d.path))).map PrepCall.deleteDoc).count
      (PrepCall.deleteDoc d) = _
  rw [hcount1]
  by_cases hd : d ∈ db.docs ∧ d._deleted = false ∧ d.path ∉ paths
  · rw [if_pos hd]
    exact List.count_eq_one_of_mem hlfnodup ((hmem d).mpr hd)
  · rw [if_neg hd]
    exact List.count_eq_zero_of_not_mem (fun hm => hd ((hmem d).mp hm))

/-- The C8 witness documents: `a` still on disk, `b` missing. -/
def wDocA8 : Metadata := { emptyMeta with _id := "a".toList, path := "a".toList }

/-- The missing document of the C8 witness. -/
def wDocB8 : Metadata := { emptyMeta with _id := "b".toList, path := "b".toList }

/-- The C8 witness store (sorted by id). -/
def wDB8 : DB := { docs := [wDocA8, wDocB8], prevRevs := [] }

/-- Witness for C8: with only `a` seen by the scan, exactly one
`deleteDoc(b)` is emitted and `paths` is cleared. -/
theorem C8_onReady_missing_docs_witness :
    ((onReady wDB8 ["a".toList]).emits).count (PrepCall.deleteDoc wDocB8) = 1 ∧
    ((onReady wDB8 ["a".toList]).emits).count (PrepCall.deleteDoc wDocA8) = 0 ∧
    (onReady wDB8 ["a".toList]).paths = none := by
  have h := C8_onReady_missing_docs wDB8 ["a".toList] (by decide)
  refine ⟨?_, ?_, h.2.2⟩
  · rw [h.1 wDocB8, if_pos ⟨by decide, by decide, by decide⟩]
  · rw [h.1 wDocA8, if_neg (by decide)]

/-! ## Bulk-write lemmas for claim C1 -/

theorem mem_putDoc {docs : List Metadata} {doc e : Metadata}
    (h : e ∈ putDoc docs doc) : e ∈ docs ∨ e = doc := by
  induction docs with
  | nil => simp [putDoc] at h; simp [h]
  | cons d rest ih =>
    by_cases hid : d._id = doc._id
    · rw [show putDoc (d :: rest) doc = doc :: rest by simp [putDoc, hid]] at h
      rcases List.mem_cons.mp h with h1 | h1
      · exact Or.inr h1
      · exact Or.inl (List.mem_cons_of_mem d h1)
    · rw [show putDoc (d :: rest) doc = d :: putDoc rest doc by simp [putDoc, hid]] at h
      rcases List.mem_cons.mp h with h1 | h1
      · exact Or.inl (by simp [h1])
      · rcases ih h1 with h2 | h2
        · exact Or.inl (List.mem_cons_of_mem d h2)
        · exact Or.inr h2

theorem mem_bulkDocs {docs : List Metadata} {l : List Metadata} {e : Metadata}
    (h : e ∈ bulkDocs docs l) : e ∈ docs ∨ e ∈ l := by
  induction l generalizing docs with
  | nil => exact Or.inl h
  | cons a l ih =>
    rcases ih h with h1 | h1
    · rcases mem_putDoc h1 with h2 | h2
      · exact Or.inl h2
      · exact Or.inr (by simp [h2])
    · exact Or.inr (List.mem_cons_of_mem a h1)

theorem mem_ids_putDoc {docs : List Metadata} {doc : Metadata} {x : Str}
    (h : x ∈ (putDoc docs doc).map Metadata._id) :
    x = doc._id ∨ x ∈ docs.map Metadata._id := by
  obtain ⟨e, he, rfl⟩ := List.mem_map.mp h
  rcases mem_putDoc he with h1 | h1
  · exact Or.inr (List.mem_map_of_mem Metadata._id h1)
  · exact Or.inl (by rw [h1])

theorem nodup_ids_putDoc {docs : List Metadata} (doc : Metadata)
    (h : (docs.map Metadata._id).Nodup) : ((putDoc docs doc).map Metadata._id).Nodup := by
  induction docs with
  | nil => simp [putDoc]
  | cons d rest ih =>
    rw [List.map_cons, List.nodup_cons] at h
    by_cases hid : d._id = doc._id
    · rw [show putDoc (d :: rest) doc = doc :: rest by simp [putDoc, hid]]
      rw [List.map_cons, List.nodup_cons]
      exact ⟨by rw [← hid]; exact h.1, h.2⟩
    · rw [show putDoc (d :: rest) doc = d :: putDoc rest doc by simp [putDoc, hid]]
      rw [List.map_cons, List.nodup_cons]
      refine ⟨fun hmem => ?_, ih h.2⟩
      rcases mem_ids_putDoc hmem with h1 | h1
      · exact hid h1
      · exact h.1 h1

theorem length_filter_putDoc (P : Metadata → Bool) (docs : List Metadata) (doc : Metadata)
    (hnd : (docs.map Metadata._id).Nodup) :
    ((putDoc docs doc).filter P).length =
      (docs.filter (fun d => P d && !(d._id == doc._id))).length +
        (if P doc = true then 1 else 0) := by
  induction docs with
  | nil =>
    simp only [putDoc, List.filter_nil, List.length_nil, Nat.zero_add]
    by_cases h : P doc = true
    · simp [h]
    · simp [List.filter_cons, h]
  | cons d rest ih =>
    rw [List.map_cons, List.nodup_cons] at hnd
    by_cases hid : d._id = doc._id
    · rw [show putDoc (d :: rest) doc = doc :: rest by simp [putDoc, hid]]
      have hrest : rest.filter (fun d => P d && !(d._id == doc._id)) = rest.filter P := by
        apply List.filter_congr
        intro e he
        have : e._id ≠ doc._id := by
          rw [← hid]
          intro hcontra
          exact hnd.1 (by rw [← hcontra]; exact List.mem_map_of_mem Metadata._id he)
        simp [this]
      rw [List.filter_cons, List.filter_cons, hrest]
      have hd : (P d && !(d._id == doc._id)) = false := by simp [hid]
      rw [hd]
      by_cases h : P doc = true
      · simp [h, Nat.add_comm]
      · simp [h]
    · rw [show putDoc (d :: rest) doc = d :: putDoc rest doc by simp [putDoc, hid]]
      rw [List.filter_cons, List.filter_cons]
      have heq : (P d && !(d._id == doc._id)) = P d := by simp [hid]
      rw [heq]
      by_cases h : P d = true <;> simp [h, ih hnd.2] <;> omega

theorem length_filter_bulkDocs (P : Metadata → Bool) (docs l : List Metadata)
    (hndDocs : (docs.map Metadata._id).Nodup) (hndL : (l.map Metadata._id).Nodup) :
    ((bulkDocs docs l).filter P).length =
      (docs.filter (fun d => P d && !((l.map Metadata._id).contains d._id))).length +
        (l.filter P).length := by
  induction l generalizing docs with
  | nil => simp [bulkDocs]
  | cons a l ih =>
    rw [List.map_cons, List.nodup_cons] at hndL
    have hstep : bulkDocs docs (a :: l) = bulkDocs (putDoc docs a) l := rfl
    rw [hstep, ih (putDoc docs a) (nodup_ids_putDoc a hndDocs) hndL.2]
    have hput := length_filter_putDoc (fun d => P d && !((l.map Metadata._id).contains d._id))
      docs a hndDocs
    have hQa : ((fun d => P d && !((l.map Metadata._id).contains d._id)) a) = P a := by
      have : a._id ∉ l.map Metadata._id := hndL.1
      simp only [Bool.and_eq_true_iff]
      simp [this]
    have hcongr : (putDoc docs a).filter (fun d => P d && !((l.map Metadata._id).contains d._id)) =
        (putDoc docs a).filter (fun d => P d && !((l.map Metadata._id).contains d._id)) := rfl
    rw [hput]
    have hpred : docs.filter
        (fun d => (P d && !((l.map Metadata._id).contains d._id)) && !(d._id == a._id)) =
        docs.filter (fun d => P d && !(((a :: l).map Metadata._id).contains d._id)) := by
      apply List.filter_congr
      intro e _
      simp only [List.map_cons, List.contains_cons]
      by_cases h1 : e._id = a._id
      · simp [h1]
      · have hb1 : (e._id == a._id) = false := by simp [h1]
        have hb2 : (a._id == e._id) = false := by
          simp only [beq_eq_false_iff_ne, ne_eq]
          exact fun hc => h1 hc.symm
        simp [hb1, hb2, Bool.and_assoc]
    rw [hpred, hQa]
    rw [List.filter_cons]
    by_cases h : P a = true
    · simp [h, Nat.add_assoc, Nat.add_comm]
    · simp [h]

/-! ## Prefix-substitution lemmas for claim C1 -/

theorem subst_id (f : Str) {w s : Str} (h : strStarts (w ++ ['/']) s = true) :
    ∃ r, s = w ++ '/' :: r ∧ replaceFirst s w f = f ++ '/' :: r := by
  obtain ⟨r, hr⟩ := (strStarts_iff _ _).mp h
  refine ⟨r, ?_, ?_⟩
  · rw [hr, List.append_assoc]
    rfl
  · rw [hr, List.append_assoc]
    show replaceFirst (w ++ ('/' :: r)) w f = f ++ '/' :: r
    exact replaceFirst_append w ('/' :: r) f

theorem strStarts_slash (f r : Str) : strStarts (f ++ ['/']) (f ++ '/' :: r) = true := by
  have h := strStarts_refl_append (f ++ ['/']) r
  rwa [List.append_assoc] at h

theorem slash_prefix_of_lt {a b s : Str} (h1 : strStarts (a ++ ['/']) s = true)
    (h2 : strStarts (b ++ ['/']) s = true) (hlt : a.length < b.length) :
    strStarts (a ++ ['/']) b = true := by
  have p1 : (a ++ ['/']) <+: s := by
    obtain ⟨r, hr⟩ := (strStarts_iff _ _).mp h1
    exact ⟨r, hr.symm⟩
  have p2 : (b ++ ['/']) <+: s := by
    obtain ⟨r, hr⟩ := (strStarts_iff _ _).mp h2
    exact ⟨r, hr.symm⟩
  have hp : (a ++ ['/']) <+: (b ++ ['/']) :=
    List.prefix_of_prefix_length_le p1 p2 (by simp; omega)
  have htake : a ++ ['/'] = (b ++ ['/']).take (a.length + 1) := by
    have hx := List.prefix_iff_eq_take.mp hp
    simpa using hx
  rw [List.take_append_of_le_length (by omega)] at htake
  obtain ⟨t, ht⟩ := List.take_prefix (a.length + 1) b
  exact (strStarts_iff _ _).mpr ⟨t, by rw [htake]; exact ht.symm⟩

theorem both_prefix_absurd {w f s : Str}
    (hA : strStarts (w ++ ['/']) f = false)
    (hB : strStarts (f ++ ['/']) w = false)
    (hne : f ≠ w)
    (h1 : strStarts (w ++ ['/']) s = true)
    (h2 : strStarts (f ++ ['/']) s = true) : False := by
  rcases lt_trichotomy w.length f.length with hlt | heq | hgt
  · have hx := slash_prefix_of_lt h1 h2 hlt
    rw [hA] at hx
    cases hx
  · have p1 : (w ++ ['/']) <+: s := by
      obtain ⟨r, hr⟩ := (strStarts_iff _ _).mp h1
      exact ⟨r, hr.symm⟩
    have p2 : (f ++ ['/']) <+: s := by
      obtain ⟨r, hr⟩ := (strStarts_iff _ _).mp h2
      exact ⟨r, hr.symm⟩
    have hp : (w ++ ['/']) <+: (f ++ ['/']) :=
      List.prefix_of_prefix_length_le p1 p2 (by simp [heq])
    have hx : w ++ ['/'] = f ++ ['/'] := hp.eq_of_length (by simp [heq])
    exact hne (List.append_cancel_right hx).symm
  · have hx := slash_prefix_of_lt h2 h1 hgt
    rw [hB] at hx
    cases hx

/-! ## mkMoveBulk lemmas for claim C1 -/

theorem moveSrcDoc_id (w f : Str) (d : Metadata) : (moveSrcDoc w f d)._id = d._id := rfl

theorem moveSrcDoc_deleted (w f : Str) (d : Metadata) :
    (moveSrcDoc w f d)._deleted = true := rfl

theorem moveSrcDoc_moveTo (w f : Str) (d : Metadata) :
    (moveSrcDoc w f d).moveTo = some (replaceFirst d._id w f) := rfl

theorem moveDstDoc_id (side : Side) (was folder d : Metadata) :
    (moveDstDoc side was folder d)._id = replaceFirst d._id was._id folder._id := rfl

theorem moveDstDoc_deleted (side : Side) (was folder d : Metadata) :
    (moveDstDoc side was folder d)._deleted = d._deleted := rfl

theorem moveDstDoc_path (side : Side) (was folder d : Metadata) :
    (moveDstDoc side was folder d).path = replaceFirst d.path was.path folder.path := rfl

theorem moveDstDoc_checksum (side : Side) (was folder d : Metadata) :
    (moveDstDoc side was folder d).checksum = d.checksum := rfl

theorem mem_mkMoveBulk (side : Side) (was folder : Metadata) (docs : List Metadata)
    (x : Metadata) :
    x ∈ mkMoveBulk side was folder docs ↔
      ∃ d ∈ docs, x = moveSrcDoc was._id folder._id { d with trashed := none } ∨
        x = moveDstDoc side was folder d := by
  induction docs with
  | nil => simp [mkMoveBulk]
  | cons d rest ih =>
    simp only [mkMoveBulk, List.mem_cons, ih]
    constructor
    · rintro (rfl | rfl | ⟨d', hd', hor⟩)
      · exact ⟨d, Or.inl rfl, Or.inl rfl⟩
      · exact ⟨d, Or.inl rfl, Or.inr rfl⟩
      · exact ⟨d', Or.inr hd', hor⟩
    · rintro ⟨d', hd' | hd', hor⟩
      · subst hd'
        rcases hor with rfl | rfl
        · exact Or.inl rfl
        · exact Or.inr (Or.inl rfl)
      · exact Or.inr (Or.inr ⟨d', hd', hor⟩)

theorem mem_ids_mkMoveBulk (side : Side) (was folder : Metadata) (docs : List Metadata)
    (x : Str) :
    x ∈ (mkMoveBulk side was folder docs).map Metadata._id ↔
      ∃ d ∈ docs, x = d._id ∨ x = replaceFirst d._id was._id folder._id := by
  rw [List.mem_map]
  constructor
  · rintro ⟨e, he, rfl⟩
    obtain ⟨d, hd, hor⟩ := (mem_mkMoveBulk side was folder docs e).mp he
    rcases hor with rfl | rfl
    · exact ⟨d, hd, Or.inl rfl⟩
    · exact ⟨d, hd, Or.inr rfl⟩
  · rintro ⟨d, hd, rfl | rfl⟩
    · exact ⟨moveSrcDoc was._id folder._id { d with trashed := none },
        (mem_mkMoveBulk side was folder docs _).mpr ⟨d, hd, Or.inl rfl⟩, rfl⟩
    · exact ⟨moveDstDoc side was folder d,
        (mem_mkMoveBulk side was folder docs _).mpr ⟨d, hd, Or.inr rfl⟩, rfl⟩

theorem nodup_mkMoveBulk_ids (side : Side) (was folder : Metadata)
    (hA : strStarts (was._id ++ ['/']) folder._id = false)
    (hB : strStarts (folder._id ++ ['/']) was._id = false)
    (hne : folder._id ≠ was._id) :
    ∀ docs : List Metadata,
      (∀ d ∈ docs, strStarts (was._id ++ ['/']) d._id = true) →
      (docs.map Metadata._id).Nodup →
      ((mkMoveBulk side was folder docs).map Metadata._id).Nodup := by
  intro docs
  induction docs with
  | nil =>
    intro _ _
    simp [mkMoveBulk]
  | cons d rest ih =>
    intro hpre hnd
    rw [List.map_cons, List.nodup_cons] at hnd
    have hd1 : strStarts (was._id ++ ['/']) d._id = true := hpre d (by simp)
    obtain ⟨r, hid, hsub⟩ := subst_id folder._id hd1
    simp only [mkMoveBulk, List.map_cons, List.nodup_cons, moveSrcDoc_id, moveDstDoc_id]
    refine ⟨?_, ?_, ih (fun e he => hpre e (by simp [he])) hnd.2⟩
    · intro hmem
      rcases List.mem_cons.mp hmem with hc | hc
      · rw [hsub] at hc
        exact both_prefix_absurd hA hB hne hd1 (by rw [hc]; exact strStarts_slash _ _)
      · obtain ⟨d', hd', hor⟩ := (mem_ids_mkMoveBulk side was folder rest _).mp hc
        rcases hor with heq | heq
        · exact hnd.1 (by rw [heq]; exact List.mem_map_of_mem Metadata._id hd')
        · obtain ⟨r', hid', hsub'⟩ := subst_id folder._id (hpre d' (by simp [hd']))
          rw [hsub'] at heq
          exact both_prefix_absurd hA hB hne hd1 (by rw [heq]; exact strStarts_slash _ _)
    · intro hmem
      obtain ⟨d', hd', hor⟩ := (mem_ids_mkMoveBulk side was folder rest _).mp hmem
      rcases hor with heq | heq
      · have hd'1 : strStarts (was._id ++ ['/']) d'._id = true := hpre d' (by simp [hd'])
        exact both_prefix_absurd hA hB hne hd'1
          (by rw [← heq, hsub]; exact strStarts_slash _ _)
      · obtain ⟨r', hid', hsub'⟩ := subst_id folder._id (hpre d' (by simp [hd']))
        rw [hsub, hsub'] at heq
        have hcons : ('/' :: r : Str) = '/' :: r' := List.append_cancel_left heq
        have hrr : r = r' := by injection hcons
        apply hnd.1
        rw [hid, hrr, ← hid']
        exact List.mem_map_of_mem Metadata._id hd'

theorem filter_mkMoveBulk_length (side : Side) (was folder : Metadata) :
    ∀ docs : List Metadata,
      (∀ d ∈ docs, strStarts (was._id ++ ['/']) d._id = true) →
      (∀ d ∈ docs, d._deleted = false) →
      ((mkMoveBulk side was folder docs).filter (underPath folder._id)).length =
        docs.length := by
  intro docs
  induction docs with
  | nil =>
    intro _ _
    simp [mkMoveBulk]
  | cons d rest ih =>
    intro hpre hlive
    obtain ⟨r, hid, hsub⟩ := subst_id folder._id (hpre d (by simp))
    have hsrc : underPath folder._id
        (moveSrcDoc was._id folder._id { d with trashed := none }) = false := by
      simp [underPath, moveSrcDoc_deleted]
    have hdst : underPath folder._id (moveDstDoc side was folder d) = true := by
      unfold underPath
      rw [moveDstDoc_deleted, hlive d (by simp), moveDstDoc_id, hsub, strStarts_slash]
      simp
    simp only [mkMoveBulk, List.filter_cons, hsrc, hdst]
    simp [ih (fun e he => hpre e (by simp [he])) (fun e he => hlive e (by simp [he]))]

theorem mem_byRecursivePath {docs : List Metadata} {p : Str} {d : Metadata} :
    d ∈ byRecursivePath docs p ↔ d ∈ docs ∧ underPath p d = true := by
  unfold byRecursivePath
  rw [(List.perm_insertionSort idLe _).mem_iff, List.mem_filter]

theorem dbwf_nodup_ids {docs : List Metadata} (hwf : DBWF docs) :
    (docs.map Metadata._id).Nodup := by
  have hne : List.Pairwise (fun a b : Metadata => a._id ≠ b._id) docs :=
    hwf.imp (fun h => ne_of_lt h)
  exact List.pairwise_map.mpr hne

theorem nodup_ids_byRecursivePath {docs : List Metadata} (p : Str) (hwf : DBWF docs) :
    ((byRecursivePath docs p).map Metadata._id).Nodup := by
  have hne : List.Pairwise (fun a b : Metadata => a._id ≠ b._id) docs :=
    hwf.imp (fun h => ne_of_lt h)
  have h0 : List.Pairwise (fun a b : Metadata => a._id ≠ b._id)
      (docs.filter (underPath p)) := hne.filter _
  have h1 : List.Pairwise (fun a b : Metadata => a._id ≠ b._id) (byRecursivePath docs p) :=
    (List.Perm.pairwise_iff (fun h => h.symm) (List.perm_insertionSort idLe _)).mpr h0
  exact List.pairwise_map.mpr h1

/-! ## Claim C1: recursive folder move -/

/-- C1: `moveFolderRecursively(side, folder, was)` loads all descendants of
`was`, adds for each one a tombstone whose `moveTo` is the descendant's id
with the `was._id` prefix replaced by `folder._id` together with a live
replacement carrying the correspondingly rewritten id and path, and commits
everything — including the tombstone of `was` and the new `folder` — in a
single `bulkDocs` batch; afterwards the count of live descendants of the
destination equals the prior count of descendants of the source, and every
live descendant of the destination is one of the rewritten copies. -/
theorem C1_moveFolderRecursively (side : Side) (db : DB) (folder was : Metadata)
    (hwf : DBWF db.docs)
    (hwid : was._id ≠ [])
    (hfid : folder._id ≠ [])
    (hA : strStarts (was._id ++ ['/']) folder._id = false)
    (hB : strStarts (folder._id ++ ['/']) was._id = false)
    (hcne : folder._id ≠ was._id)
    (hNoDest : ∀ d ∈ db.docs, underPath folder._id d = false)
    (hpaths : ∀ d ∈ byRecursivePath db.docs was._id,
        strStarts (was.path ++ ['/']) d.path = true) :
    (moveFolderRecursivelyAsync side db folder was).db.docs =
      bulkDocs db.docs (moveFolderBulk side db folder was) ∧
    (∀ d ∈ byRecursivePath db.docs was._id, ∃ r : Str,
      d._id = was._id ++ '/' :: r ∧
      moveSrcDoc was._id folder._id { d with trashed := none } ∈
        moveFolderBulk side db folder was ∧
      (moveSrcDoc was._id folder._id { d with trashed := none })._deleted = true ∧
      (moveSrcDoc was._id folder._id { d with trashed := none }).moveTo =
        some (folder._id ++ '/' :: r) ∧
      moveDstDoc side was folder d ∈ moveFolderBulk side db folder was ∧
      (moveDstDoc side was folder d)._id = folder._id ++ '/' :: r ∧
      (moveDstDoc side was folder d)._deleted = false) ∧
    { was with _deleted := true, moveTo := some folder._id } ∈
      moveFolderBulk side db folder was ∧
    folder ∈ moveFolderBulk side db folder was ∧
    (byRecursivePath (moveFolderRecursivelyAsync side db folder was).db.docs
        folder._id).length =
      (byRecursivePath db.docs was._id).length ∧
    (∀ e ∈ byRecursivePath (moveFolderRecursivelyAsync side db folder was).db.docs
        folder._id,
      ∃ d ∈ byRecursivePath db.docs was._id, ∃ r q : Str,
        e = moveDstDoc side was folder d ∧
        d._id = was._id ++ '/' :: r ∧ e._id = folder._id ++ '/' :: r ∧
        d.path = was.path ++ '/' :: q ∧ e.path = folder.path ++ '/' :: q ∧
        e.checksum = d.checksum) := by
  have hdocs_pre : ∀ d ∈ byRecursivePath db.docs was._id,
      strStarts (was._id ++ ['/']) d._id = true := by
    intro d hd
    have hup := (mem_byRecursivePath.mp hd).2
    unfold underPath at hup
    rw [Bool.and_eq_true] at hup
    have h2 := hup.2
    rw [Bool.or_eq_true] at h2
    rcases h2 with h2 | h2
    · exact absurd (List.isEmpty_iff.mp h2) hwid
    · exact h2
  have hdocs_live : ∀ d ∈ byRecursivePath db.docs was._id, d._deleted = false := by
    intro d hd
    have hup := (mem_byRecursivePath.mp hd).2
    unfold underPath at hup
    rw [Bool.and_eq_true] at hup
    simpa using hup.1
  have hnd_store : (db.docs.map Metadata._id).Nodup := dbwf_nodup_ids hwf
  have hnd_docs : ((byRecursivePath db.docs was._id).map Metadata._id).Nodup :=
    nodup_ids_byRecursivePath was._id hwf
  have hPtomb : underPath folder._id
      ({ was with _deleted := true, moveTo := some folder._id }) = false := by
    simp [underPath]
  have hPfolder : underPath folder._id folder = false := by
    unfold underPath
    rw [strStarts_of_longer (by simp)]
    simp [List.isEmpty_iff, hfid]
  have hnd_bulk : ((moveFolderBulk side db folder was).map Metadata._id).Nodup := by
    unfold moveFolderBulk
    rw [List.map_cons, List.map_cons, List.nodup_cons, List.nodup_cons]
    refine ⟨?_, ?_, nodup_mkMoveBulk_ids side was folder hA hB hcne _ hdocs_pre hnd_docs⟩
    · show was._id ∉ folder._id :: (mkMoveBulk side was folder _).map Metadata._id
      intro hmem
      rcases List.mem_cons.mp hmem with hc | hc
      · exact hcne hc.symm
      · obtain ⟨d', hd', hor⟩ := (mem_ids_mkMoveBulk side was folder _ _).mp hc
        rcases hor with heq | heq
        · obtain ⟨r', hid', _⟩ := subst_id folder._id (hdocs_pre d' hd')
          rw [hid'] at heq
          have := congrArg List.length heq
          simp at this
        · obtain ⟨r', _, hsub'⟩ := subst_id folder._id (hdocs_pre d' hd')
          rw [hsub'] at heq
          have hx : strStarts (folder._id ++ ['/']) was._id = true := by
            rw [heq]
            exact strStarts_slash _ _
          rw [hB] at hx
          cases hx
    · show folder._id ∉ (mkMoveBulk side was folder _).map Metadata._id
      intro hmem
      obtain ⟨d', hd', hor⟩ := (mem_ids_mkMoveBulk side was folder _ _).mp hmem
      rcases hor with heq | heq
      · obtain ⟨r', hid', _⟩ := subst_id folder._id (hdocs_pre d' hd')
        rw [hid'] at heq
        have hx : strStarts (was._id ++ ['/']) folder._id = true := by
          rw [heq]
          exact strStarts_slash _ _
        rw [hA] at hx
        cases hx
      · obtain ⟨r', _, hsub'⟩ := subst_id folder._id (hdocs_pre d' hd')
        rw [hsub'] at heq
        have := congrArg List.length heq
        simp at this
  have hlen : ((bulkDocs db.docs (moveFolderBulk side db folder was)).filter
      (underPath folder._id)).length = (byRecursivePath db.docs was._id).length := by
    rw [length_filter_bulkDocs _ _ _ hnd_store hnd_bulk]
    have hz : (db.docs.filter (fun d => underPath folder._id d &&
        !(((moveFolderBulk side db folder was).map Metadata._id).contains d._id))).length
        = 0 := by
      rw [List.length_eq_zero, List.filter_eq_nil_iff]
      intro d hd hcontra
      rw [Bool.and_eq_true, hNoDest d hd] at hcontra
      cases hcontra.1
    have hbulkfilter : ((moveFolderBulk side db folder was).filter
        (underPath folder._id)).length = (byRecursivePath db.docs was._id).length := by
      unfold moveFolderBulk
      rw [List.filter_cons, List.filter_cons, hPtomb, hPfolder]
      simp only [if_false, Bool.false_eq_true]
      exact filter_mkMoveBulk_length side was folder _ hdocs_pre hdocs_live
    omega
  refine ⟨rfl, ?_, ?_, ?_, ?_, ?_⟩
  · intro d hd
    obtain ⟨r, hid, hsub⟩ := subst_id folder._id (hdocs_pre d hd)
    refine ⟨r, hid, ?_, rfl, ?_, ?_, ?_, ?_⟩
    · exact List.mem_cons_of_mem _ (List.mem_cons_of_mem _
        ((mem_mkMoveBulk side was folder _ _).mpr ⟨d, hd, Or.inl rfl⟩))
    · show some (replaceFirst d._id was._id folder._id) = some (folder._id ++ '/' :: r)
      rw [hsub]
    · exact List.mem_cons_of_mem _ (List.mem_cons_of_mem _
        ((mem_mkMoveBulk side was folder _ _).mpr ⟨d, hd, Or.inr rfl⟩))
    · show replaceFirst d._id was._id folder._id = folder._id ++ '/' :: r
      exact hsub
    · show d._deleted = false
      exact hdocs_live d hd
  · exact List.mem_cons_self _ _
  · exact List.mem_cons_of_mem _ (List.mem_cons_self _ _)
  · show (List.insertionSort idLe ((bulkDocs db.docs
        (moveFolderBulk side db folder was)).filter (underPath folder._id))).length = _
    rw [(List.perm_insertionSort idLe _).length_eq]
    exact hlen
  · intro e he
    obtain ⟨hmem, hPe⟩ := mem_byRecursivePath.mp he
    rcases mem_bulkDocs hmem with hdb | hbulk
    · rw [hNoDest e hdb] at hPe
      cases hPe
    · rcases List.mem_cons.mp hbulk with rfl | hbulk2
      · rw [hPtomb] at hPe
        cases hPe
      · rcases List.mem_cons.mp hbulk2 with rfl | hbulk3
        · rw [hPfolder] at hPe
          cases hPe
        · obtain ⟨d, hd, hor⟩ := (mem_mkMoveBulk side was folder _ _).mp hbulk3
          rcases hor with rfl | rfl
          · have hx : underPath folder._id
                (moveSrcDoc was._id folder._id { d with trashed := none }) = false := by
              simp [underPath, moveSrcDoc_deleted]
            rw [hx] at hPe
            cases hPe
          · obtain ⟨r, hidr, hsubr⟩ := subst_id folder._id (hdocs_pre d hd)
            obtain ⟨q, hidq, hsubq⟩ := subst_id folder.path (hpaths d hd)
            refine ⟨d, hd, r, q, rfl, hidr, ?_, hidq, ?_, rfl⟩
            · show replaceFirst d._id was._id folder._id = folder._id ++ '/' :: r
              exact hsubr
            · show replaceFirst d.path was.path folder.path = folder.path ++ '/' :: q
              exact hsubq

/-- The moved folder of the C1 witness. -/
def wDir1 : Metadata :=
  { emptyMeta with
      _id := "dir".toList
      path := "dir".toList
      docType := DocType.folder
      sides := { loc := some 1, rem := some 1 } }

/-- A file inside the moved folder. -/
def wChild1 : Metadata :=
  { emptyMeta with
      _id := "dir/a".toList
      path := "dir/a".toList
      docType := DocType.file
      checksum := some "c".toList
      sides := { loc := some 1, rem := some 1 } }

/-- The C1 witness store. -/
def wDB1 : DB := { docs := [wDir1, wChild1], prevRevs := [] }

/-- The move destination folder `dir2`. -/
def wFolder1 : Metadata :=
  { emptyMeta with
      _id := "dir2".toList
      path := "dir2".toList
      docType := DocType.folder
      sides := { loc := some 2, rem := some 1 } }

/-- Witness for C1: after moving `dir` (containing `dir/a`) to `dir2`, the
destination has as many live descendants as the source had. -/
theorem C1_moveFolderRecursively_witness :
    (byRecursivePath (moveFolderRecursivelyAsync Side.loc wDB1 wFolder1 wDir1).db.docs
        wFolder1._id).length =
      (byRecursivePath wDB1.docs wDir1._id).length :=
  (C1_moveFolderRecursively Side.loc wDB1 wFolder1 wDir1 (by decide) (by decide)
    (by decide) (by decide) (by decide) (by decide) (by decide) (by decide)).2.2.2.2.1
